import Mathlib

/-!
Verification of the browser-automation sub-agent of this repository
(`packages/core/src/agents/browser/browserAgent.ts` and
`packages/core/src/agents/browser/browserManager.ts`).

The development shallowly embeds the orchestrator loop (`BrowserAgent.runTask`),
the visual delegate loop (`BrowserAgent.runVisualDelegate`), the response
normalisation helper (`processToolResponse`), the overlay heuristic
(`detectBlockingOverlays`) and the connection manager (`BrowserManager`).
External collaborators (the model endpoint, the MCP automation client, the
abort signal) are modelled as oracles supplied through environment records;
everything the control flow itself does is translated from the source.

JavaScript string primitives (`split`, `trim`, `includes`, `toLowerCase`,
`startsWith`) are re-implemented on `List Char` with structural recursion so
every definition evaluates inside the kernel.
-/

/-! ## JavaScript-style string primitives -/

/-- Whitespace characters relevant to `String.prototype.trim` for the strings
handled here (space, tab, newline, carriage return). -/
def isWs (c : Char) : Bool :=
  c == ' ' || c == '\t' || c == '\n' || c == '\r'

/-- Drop leading whitespace from a character list. -/
def dropWsL : List Char → List Char
  | [] => []
  | c :: cs => if isWs c then dropWsL cs else c :: cs

/-- Character-list model of `String.prototype.trim`: drop whitespace on the
left, then on the right (via reversal). -/
def trimCl (l : List Char) : List Char :=
  (dropWsL (dropWsL l).reverse).reverse

/-- `String.prototype.trim`. -/
def trimStr (s : String) : String :=
  ⟨trimCl s.data⟩

/-- Is `p` a prefix of `l`? (Character-list level.) -/
def isPrefixCl : List Char → List Char → Bool
  | [], _ => true
  | _ :: _, [] => false
  | p :: ps, c :: cs => p == c && isPrefixCl ps cs

/-- `String.prototype.startsWith`. -/
def strStartsWith (s pat : String) : Bool :=
  isPrefixCl pat.data s.data

/-- Does `pat` occur as a contiguous substring of `l`?
(Character-list model of `String.prototype.includes`.) -/
def containsCl (pat : List Char) : List Char → Bool
  | [] => isPrefixCl pat []
  | c :: cs => isPrefixCl pat (c :: cs) || containsCl pat cs

/-- `String.prototype.includes`. -/
def containsStr (s pat : String) : Bool :=
  containsCl pat.data s.data

/-- Fuelled model of `String.prototype.split` with a non-empty string
separator: scan left to right, cutting at each (leftmost, non-overlapping)
occurrence of `pat`.  The fuel is only there to make the recursion structural;
it is always instantiated with the length of the scanned list, which is enough
for every input (each step consumes at least one character). -/
def splitOnClF (pat : List Char) : Nat → List Char → List (List Char)
  | _, [] => [[]]
  | 0, l => [l]
  | fuel + 1, c :: cs =>
    if isPrefixCl pat (c :: cs) then
      [] :: splitOnClF pat fuel (List.drop pat.length (c :: cs))
    else
      match splitOnClF pat fuel cs with
      | [] => [[c]]
      | h :: t => (c :: h) :: t

/-- `String.prototype.split` with a string separator. -/
def splitOnStr (s pat : String) : List String :=
  (splitOnClF pat.data s.data.length s.data).map fun l => ⟨l⟩

/-- ASCII lowering of one character, as `String.prototype.toLowerCase` does
for the ASCII range that matters to the overlay heuristic. -/
def lowerChar (c : Char) : Char :=
  if 'A' ≤ c && c ≤ 'Z' then Char.ofNat (c.toNat + 32) else c

/-- `String.prototype.toLowerCase` (ASCII). -/
def lowerStr (s : String) : String :=
  ⟨s.data.map lowerChar⟩

/-! ### Basic lemmas about the string primitives -/

theorem dropWsL_idem (l : List Char) : dropWsL (dropWsL l) = dropWsL l := by
  induction l with
  | nil => rfl
  | cons c cs ih =>
    by_cases h : isWs c = true
    · simp [dropWsL, h, ih]
    · simp [dropWsL, h]

theorem dropWsL_append_nonWs (c : Char) (hc : isWs c = false) (m : List Char) :
    ∃ m', dropWsL (m ++ [c]) = m' ++ [c] := by
  induction m with
  | nil => exact ⟨[], by simp [dropWsL, hc]⟩
  | cons a as ih =>
    by_cases h : isWs a = true
    · obtain ⟨m', hm⟩ := ih
      exact ⟨m', by simpa [dropWsL, h] using hm⟩
    · exact ⟨a :: as, by simp [dropWsL, h]⟩

theorem dropWsL_trimCl (l : List Char) : dropWsL (trimCl l) = trimCl l := by
  induction l with
  | nil => rfl
  | cons c cs ih =>
    by_cases h : isWs c = true
    · simpa [trimCl, dropWsL, h] using ih
    · obtain ⟨m', hm⟩ := dropWsL_append_nonWs c (by simpa using h) cs.reverse
      have ht : trimCl (c :: cs) = c :: m'.reverse := by
        show (dropWsL (dropWsL (c :: cs)).reverse).reverse = _
        rw [show dropWsL (c :: cs) = c :: cs from by simp [dropWsL, h]]
        rw [List.reverse_cons, hm]
        simp
      rw [ht]
      simp [dropWsL, h]

theorem trimCl_idem (l : List Char) : trimCl (trimCl l) = trimCl l := by
  have h1 : dropWsL (trimCl l) = trimCl l := dropWsL_trimCl l
  show (dropWsL (dropWsL (trimCl l)).reverse).reverse = trimCl l
  rw [h1]
  have h2 : (trimCl l).reverse = dropWsL (dropWsL l).reverse := by
    show ((dropWsL (dropWsL l).reverse).reverse).reverse = _
    rw [List.reverse_reverse]
  rw [h2, dropWsL_idem]
  rfl

theorem trimStr_idem (s : String) : trimStr (trimStr s) = trimStr s := by
  simp [trimStr, trimCl_idem]

theorem trimCl_append_ws (c : Char) (hc : isWs c = true) (x : List Char) :
    trimCl (x ++ [c]) = trimCl x := by
  induction x with
  | nil => simp [trimCl, dropWsL, hc]
  | cons a as ih =>
    by_cases h : isWs a = true
    · have e1 : dropWsL (a :: as ++ [c]) = dropWsL (as ++ [c]) := by
        simp [dropWsL, h]
      have e2 : dropWsL (a :: as) = dropWsL as := by simp [dropWsL, h]
      show (dropWsL (dropWsL (a :: as ++ [c])).reverse).reverse
          = (dropWsL (dropWsL (a :: as)).reverse).reverse
      rw [e1, e2]
      exact ih
    · have e1 : dropWsL (a :: as ++ [c]) = a :: (as ++ [c]) := by
        simp [dropWsL, h]
      have e2 : dropWsL (a :: as) = a :: as := by simp [dropWsL, h]
      show (dropWsL (dropWsL (a :: as ++ [c])).reverse).reverse
          = (dropWsL (dropWsL (a :: as)).reverse).reverse
      rw [e1, e2, List.reverse_cons, List.reverse_cons]
      rw [show (as ++ [c]).reverse = c :: as.reverse from by simp]
      rw [show (c :: as.reverse) ++ [a] = c :: (as.reverse ++ [a]) from rfl]
      rw [show dropWsL (c :: (as.reverse ++ [a])) = dropWsL (as.reverse ++ [a])
        from by simp [dropWsL, hc]]

theorem data_append (s t : String) : (s ++ t).data = s.data ++ t.data := rfl

theorem trimStr_append_newline (s : String) :
    trimStr (s ++ "\n") = trimStr s := by
  show trimStr ⟨s.data ++ ['\n']⟩ = trimStr s
  simp [trimStr, trimCl_append_ws '\n' rfl]

theorem isPrefixCl_append (l u : List Char) : isPrefixCl l (l ++ u) = true := by
  induction l with
  | nil => rfl
  | cons c cs ih => simp [isPrefixCl, ih]

theorem isPrefixCl_refl (l : List Char) : isPrefixCl l l = true := by
  simpa using isPrefixCl_append l []

theorem splitOnClF_two_le_containsCl (pat : List Char) (fuel : Nat) (l : List Char)
    (h : 2 ≤ (splitOnClF pat fuel l).length) : containsCl pat l = true := by
  induction fuel generalizing l with
  | zero =>
    cases l with
    | nil => simp [splitOnClF] at h
    | cons c cs => simp [splitOnClF] at h
  | succ fuel ih =>
    cases l with
    | nil => simp [splitOnClF] at h
    | cons c cs =>
      by_cases hp : isPrefixCl pat (c :: cs) = true
      · simp [containsCl, hp]
      · simp only [splitOnClF, hp, Bool.false_eq_true, if_false] at h
        rcases hrec : splitOnClF pat fuel cs with _ | ⟨hd, tl⟩
        · rw [hrec] at h; simp at h
        · rw [hrec] at h
          simp only [List.length_cons, Nat.add_le_add_iff_right] at h
          have : 2 ≤ (splitOnClF pat fuel cs).length := by
            rw [hrec]; simp; omega
          simp [containsCl, hp, ih cs this]

/-! ## Response normalisation (`processToolResponse` in `BrowserAgent.runTask`)

The MCP client returns `content` as a list of typed parts.  `processToolResponse`
concatenates text parts, splits trailing snapshot text at the marker
`## Latest page snapshot`, routes marker-free text containing `uid=` to the
snapshot channel, and renders resource parts as a bracketed URI stub. -/

/-- One element of an MCP tool response `content` array.  `text ""` models a
text part whose `text` field is empty or missing (falsy in JavaScript). -/
inductive RespItem where
  | text (s : String)
  | resource (uri : String)
  | other
deriving DecidableEq

/-- The marker splitting narrative text from a trailing snapshot. -/
def snapshotMarker : String := "## Latest page snapshot"

/-- One step of the `for (const item of responseContent)` loop: the accumulator
is the pair `(textOutput, foundSnapshot)`. -/
def processItem (acc : String × String) : RespItem → String × String
  | RespItem.text s =>
    if s = "" then acc
    else if containsStr s snapshotMarker then
      let ps := splitOnStr s snapshotMarker
      let t0 := trimStr (ps.headD "")
      let textOutput := if t0 = "" then acc.1 else acc.1 ++ t0 ++ "\n"
      let snap :=
        match ps with
        | _ :: p1 :: _ => if p1 = "" then acc.2 else trimStr p1
        | _ => acc.2
      (textOutput, snap)
    else if containsStr s "uid=" then (acc.1, acc.2 ++ s)
    else (acc.1 ++ s, acc.2)
  | RespItem.resource uri => (acc.1 ++ "[Resource: " ++ uri ++ "]\n", acc.2)
  | RespItem.other => acc

/-- `processToolResponse`: fold the items, then trim both channels.  The first
component is the narrative text, the second the extracted snapshot. -/
def processToolResponse (items : List RespItem) : String × String :=
  let r := items.foldl processItem ("", "")
  (trimStr r.1, trimStr r.2)

/-! ## Overlay heuristic (`detectBlockingOverlays`) -/

/-- Result of `detectBlockingOverlays`. -/
structure OverlayResult where
  hasOverlay : Bool
  overlayInfo : String
  suggestedAction : String
deriving DecidableEq

/-- The ARIA roles scanned for. -/
def overlayRoles : List String := ["dialog", "alertdialog", "tooltip"]

/-- The close-button phrase list. -/
def closeButtonPatterns : List String :=
  ["close", "dismiss", "got it", "no thanks", "accept", "ok", "×", "x button",
   "cancel"]

/-- Does this line match one of the role patterns
(lowercased line contains the quoted role attribute or the role word padded
with spaces)? -/
def lineOverlayHit (line : String) : Bool :=
  overlayRoles.any fun r =>
    containsStr (lowerStr line) ("role=\"" ++ r ++ "\"") ||
    containsStr (lowerStr line) (" " ++ r ++ " ")

/-- Does this line carry an explicit modal marker? -/
def lineAriaModal (line : String) : Bool :=
  containsStr (lowerStr line) "aria-modal=\"true\""

/-- The overlay elements collected by the scan, in scan order.  A line is
pushed once when a role matches (the inner loop breaks at the first role) and
once more when it also matches the aria-modal test, as in the source. -/
def overlayElementsOf (lines : List String) : List String :=
  lines.foldr
    (fun line acc =>
      ((if lineOverlayHit line then [trimStr line] else []) ++
       (if lineAriaModal line then [trimStr line] else [])) ++ acc)
    []

/-- The first run of non-whitespace characters of a list. -/
def takeNonWs : List Char → List Char
  | [] => []
  | c :: cs => if isWs c then [] else c :: takeNonWs cs

/-- Model of matching the regular expression pattern uid=(non-space run)
against a line: find the first occurrence of the four characters u, i, d, =
followed by at least one non-space character, and capture the maximal
non-space run; if the run is empty, keep searching from the next position. -/
def findUidMatch : List Char → Option (List Char)
  | [] => Option.none
  | c :: cs =>
    if isPrefixCl "uid=".data (c :: cs) then
      let v := takeNonWs (List.drop 4 (c :: cs))
      if v = [] then findUidMatch cs else Option.some v
    else findUidMatch cs

/-- A collected close-button candidate. -/
structure CloseBtn where
  uid : String
  text : String
deriving DecidableEq

/-- The close-button scan of one line. -/
def lineCloseBtn (line : String) : Option CloseBtn :=
  match findUidMatch line.data with
  | Option.none => Option.none
  | Option.some uidCl =>
    if (closeButtonPatterns.any fun p => containsStr (lowerStr line) p) &&
       (containsStr (lowerStr line) "button" ||
        containsStr (lowerStr line) "link") then
      Option.some ⟨⟨uidCl⟩, trimStr line⟩
    else Option.none

/-- The close-button candidates collected over all lines, in scan order. -/
def closeButtonsOf (lines : List String) : List CloseBtn :=
  lines.filterMap lineCloseBtn

/-- `detectBlockingOverlays`: split the snapshot into lines, collect overlay
elements and close-button candidates, and assemble the result.  The displayed
overlay description is capped to the first 3 collected elements. -/
def detectBlockingOverlays (snapshot : String) : OverlayResult :=
  let lines := splitOnStr snapshot "\n"
  let overlayElements := overlayElementsOf lines
  let closeButtons := closeButtonsOf lines
  { hasOverlay := !overlayElements.isEmpty
    overlayInfo :=
      if overlayElements.isEmpty then ""
      else "Detected overlay elements:\n" ++
        String.intercalate "\n" (overlayElements.take 3)
    suggestedAction :=
      if closeButtons.isEmpty then ""
      else "Found potential close buttons: " ++
        String.intercalate ", " (closeButtons.map fun b => "uid=" ++ b.uid) }

/-! ## The orchestrator loop (`BrowserAgent.runTask`)

The loop interacts with three external collaborators, modelled as oracles:

* the abort signal (`AbortSig`): the code reads `signal.aborted` at the top of
  each iteration, once per streamed event, once after streaming, and before
  each queued tool execution.  We number these reads consecutively; the signal
  is monotone (once set it stays set), represented by the index of the first
  read that observes `true`;
* the model (`turns : Nat → ModelTurn`): each call either throws or yields a
  sequence of streamed chunks, each carrying function calls;
* tool dispatch: each function call records in `exec` what the `try` block of
  the source computes for it — either a normalised response string or a thrown
  error message.  `complete_task` is handled locally by the loop itself and
  never consults `exec`.
-/

/-- The cooperative abort signal.  `abortAt = some a` means reads number `a`
and later observe `true`; `none` means the signal is never set. -/
structure AbortSig where
  abortAt : Option Nat
deriving DecidableEq

/-- The value `signal.aborted` observed at read number `k`. -/
def AbortSig.aborted (sig : AbortSig) (k : Nat) : Bool :=
  match sig.abortAt with
  | Option.none => false
  | Option.some a => decide (a ≤ k)

/-- The never-set signal. -/
def sigNever : AbortSig := ⟨Option.none⟩

/-- Outcome of dispatching one tool call inside the `try` block. -/
inductive ExecResult where
  | ok (s : String)
  | thrown (msg : String)
deriving DecidableEq

/-- A function call as collected from the model stream.  `name = ""` models a
call whose name is missing or empty (falsy in JavaScript); `summary` is the
`summary` argument read by `complete_task` (`""` models a missing argument);
`exec` is the oracle for what executing the call via the MCP client / browser
tools produces. -/
structure FnCall where
  name : String
  summary : String
  exec : ExecResult
deriving DecidableEq

/-- The interaction-failure substrings scanned for in a tool response. -/
def blockedSignals : List String :=
  ["not interactable", "obscured", "intercept", "blocked"]

/-- The remediation hint appended when a response matches `blockedSignals`. -/
def overlayHintSuffix : String :=
  "\n\n⚠️ This action may have been blocked by an overlay, popup, or tooltip. Look for close/dismiss buttons in the accessibility tree and click them first."

/-- Append the remediation hint when the response text carries an
interaction-failure signal. -/
def withBlockedHint (t : String) : String :=
  if blockedSignals.any (fun p => containsStr t p) then t ++ overlayHintSuffix
  else t

/-- The summary recorded by `complete_task`
(`(fnArgs['summary'] as string) || 'Task completed'`). -/
def completeSummary (c : FnCall) : String :=
  if c.summary = "" then "Task completed" else c.summary

/-- The `functionResponse` string computed for one named call. -/
def respTextOf (c : FnCall) : String :=
  if c.name = "complete_task" then completeSummary c
  else
    match c.exec with
    | ExecResult.ok s => s
    | ExecResult.thrown m => "Error executing " ++ c.name ++ ": " ++ m

/-- A function-response part pushed onto `currentInputParts`. -/
structure RespPart where
  name : String
  text : String
deriving DecidableEq

/-- The function-response part produced for one named call (response text plus
the possible blocked-overlay hint). -/
def partOf (c : FnCall) : RespPart :=
  ⟨c.name, withBlockedHint (respTextOf c)⟩

/-- Result of one round's tool-execution loop (`for (const call of
functionCalls)`).  `parts` is the next turn's `currentInputParts`, `executed`
the names dispatched in order, `completed`/`summary` the values of
`taskCompleted`/`taskSummary` after the round, `cancelled` whether the loop
broke on the abort signal, `kNext` the next signal-read number. -/
structure RoundResult where
  parts : List RespPart
  executed : List String
  completed : Bool
  summary : String
  cancelled : Bool
  kNext : Nat
deriving DecidableEq

/-- The tool-execution loop.  Per call: read the abort signal (break when
set); skip calls without a name (no response part is pushed); otherwise record
`complete_task` locally or dispatch through `exec`, and push exactly one
function-response part. -/
def execRound (sig : AbortSig) (k : Nat) (completed : Bool) (summary : String) :
    List FnCall → RoundResult
  | [] => ⟨[], [], completed, summary, false, k⟩
  | c :: rest =>
    if sig.aborted k then ⟨[], [], completed, summary, true, k + 1⟩
    else if c.name = "" then execRound sig (k + 1) completed summary rest
    else
      let completed2 := completed || (c.name == "complete_task")
      let summary2 :=
        if c.name = "complete_task" then completeSummary c else summary
      let R := execRound sig (k + 1) completed2 summary2 rest
      ⟨partOf c :: R.parts, c.name :: R.executed, R.completed, R.summary,
        R.cancelled, R.kNext⟩

/-- One model call: either the stream throws, or it delivers chunks, each
carrying the function calls of that chunk (chunks with no calls model events
carrying only text or thoughts). -/
inductive ModelTurn where
  | thrown (msg : String)
  | ok (chunks : List (List FnCall))

/-- Result of draining the stream: the collected function calls and the next
signal-read number. -/
structure StreamResult where
  calls : List FnCall
  kNext : Nat
deriving DecidableEq

/-- The `for await (const event of stream)` loop: one abort read per event,
breaking when set, otherwise accumulating the chunk's function calls. -/
def collectStream (sig : AbortSig) (k : Nat) :
    List (List FnCall) → StreamResult
  | [] => ⟨[], k⟩
  | ch :: rest =>
    if sig.aborted k then ⟨[], k + 1⟩
    else
      let R := collectStream sig (k + 1) rest
      ⟨ch ++ R.calls, R.kNext⟩

/-- Concatenation of the chunks of one model turn. -/
def joinAll : List (List FnCall) → List FnCall
  | [] => []
  | ch :: rest => ch ++ joinAll rest

/-- The environment of one orchestrator run. -/
structure AgentEnv where
  turns : Nat → ModelTurn
  sig : AbortSig

/-- Observable outcome of the orchestrator loop: the string `runTask` returns,
the number of model calls made, and the names of all dispatched tool calls in
order. -/
structure LoopResult where
  result : String
  modelCalls : Nat
  actions : List String
deriving DecidableEq

/-- `return taskSummary || 'Task finished'`. -/
def finalResult (summary : String) : String :=
  if summary = "" then "Task finished" else summary

/-- The `while (iterationCount < MAX_ITERATIONS)` loop, with
`fuel = MAX_ITERATIONS - iterationCount`.  Per iteration: abort check; model
call (a thrown model error — including the empty-stream message — returns the
error string immediately); stream drain with per-event abort checks; post-
stream abort check; then either the tool-execution round (ending the loop when
`taskCompleted` was set) or the corrective re-prompt when no call was
returned. -/
def runLoop (env : AgentEnv) : Nat → Nat → Nat → Bool → String → LoopResult
  | 0, _, _, _, summary => ⟨finalResult summary, 0, []⟩
  | fuel + 1, k, t, completed, summary =>
    if env.sig.aborted k then ⟨finalResult summary, 0, []⟩
    else
      match env.turns t with
      | ModelTurn.thrown msg => ⟨"Error calling model: " ++ msg, 1, []⟩
      | ModelTurn.ok chunks =>
        let S := collectStream env.sig (k + 1) chunks
        if env.sig.aborted S.kNext then ⟨finalResult summary, 1, []⟩
        else if 0 < S.calls.length then
          let R := execRound env.sig (S.kNext + 1) completed summary S.calls
          if R.completed then ⟨finalResult R.summary, 1, R.executed⟩
          else
            let L := runLoop env fuel R.kNext (t + 1) R.completed R.summary
            ⟨L.result, 1 + L.modelCalls, R.executed ++ L.actions⟩
        else
          let L := runLoop env fuel (S.kNext + 1) (t + 1) completed summary
          ⟨L.result, 1 + L.modelCalls, L.actions⟩

/-- `const MAX_ITERATIONS = 20`. -/
def MAX_ITERATIONS : Nat := 20

/-- `BrowserAgent.runTask` from the point where the browser connection has
been established: the loop starts with an empty `taskSummary`,
`taskCompleted = false`, read number 0 and turn index 0. -/
def runTask (env : AgentEnv) : LoopResult :=
  runLoop env MAX_ITERATIONS 0 0 false ""

/-- The message text of the one recognised transient model error. -/
def emptyStreamMessage : String := "Model stream ended with empty response text"

/-! ## The visual delegate loop (`BrowserAgent.runVisualDelegate`)

The delegate loop runs at most `VISUAL_MAX_STEPS` iterations, checking the
abort signal once at the top of each iteration (there is no per-call check in
its tool loop).  Each executed call contributes one function-response part and
one action-history line. -/

/-- A visual tool call: its name, the rendered argument list (the source's
`Object.keys(args).map(k => k + '=' + args[k]).join(', ')`, supplied by the
oracle), and the dispatch outcome — for a known tool either the JSON rendering
of the object the browser tool returned, or a thrown error message. -/
structure VisCall where
  name : String
  argsRepr : String
  exec : ExecResult
deriving DecidableEq

/-- The tools handled by the visual switch. -/
def knownVisualTools : List String :=
  ["click_at", "type_text_at", "drag_and_drop", "press_key", "scroll_document"]

/-- `funcResult` of one visual call: a value object, or an object carrying an
`error` field. -/
inductive VRes where
  | val (json : String)
  | err (msg : String)
deriving DecidableEq

/-- Dispatch one visual call: the switch default yields an unknown-tool error
object; a thrown exception is caught into an error object; otherwise the tool
result stands. -/
def execVisualCall (c : VisCall) : VRes :=
  if knownVisualTools.contains c.name then
    match c.exec with
    | ExecResult.ok j => VRes.val j
    | ExecResult.thrown m => VRes.err m
  else VRes.err ("Unknown visual tool: " ++ c.name)

/-- Minimal JSON string escaping (quote, backslash, newline), enough for the
strings that flow through the history. -/
def jsonEscape (s : String) : String :=
  ⟨s.data.foldr
    (fun c acc =>
      if c = '"' then '\\' :: '"' :: acc
      else if c = '\\' then '\\' :: '\\' :: acc
      else if c = '\n' then '\\' :: 'n' :: acc
      else c :: acc)
    []⟩

/-- `JSON.stringify(funcResult)`. -/
def VRes.json : VRes → String
  | VRes.val j => j
  | VRes.err m => "\x7b\"error\":\"" ++ jsonEscape m ++ "\"\x7d"

/-- One action-history line. -/
def historyEntry (c : VisCall) (r : VRes) : String :=
  "- " ++ c.name ++ "(" ++ c.argsRepr ++ ") => " ++ r.json

/-- Result of the visual tool loop of one round: the function-response parts
(name and result object, in order) and the history lines appended. -/
structure VisRoundResult where
  responses : List (String × VRes)
  history : List String
deriving DecidableEq

/-- The `for (const part of functionCalls)` loop of the visual delegate: every
call executes (a per-call exception is captured into that call's result) and
contributes exactly one response and one history line. -/
def execVisualRound : List VisCall → VisRoundResult
  | [] => ⟨[], []⟩
  | c :: rest =>
    let r := execVisualCall c
    let R := execVisualRound rest
    ⟨(c.name, r) :: R.responses, historyEntry c r :: R.history⟩

/-- One response of the visual model: `noResponse` models a result with no
candidate content (the loop breaks), `ok text calls` a content with its
concatenated text and function calls. -/
inductive VisualTurn where
  | noResponse
  | ok (text : String) (calls : List VisCall)

/-- The environment of a visual delegate run. -/
structure VisualEnv where
  turns : Nat → VisualTurn
  sig : AbortSig

/-- Observable outcome of the visual delegate: the `output` string it returns,
the number of model calls and the accumulated action history. -/
structure VLoopResult where
  output : String
  modelCalls : Nat
  history : List String
deriving DecidableEq

/-- The return value used both after the `for` loop ends (cap reached) and
when a turn has no response content. -/
def maxStepsOutput (history : List String) : String :=
  "Visual Agent reached max steps WITHOUT completing the task. The task may be incomplete or requires more steps.\nActions Taken:\n" ++
    String.intercalate "\n" history

/-- The completion return value when a turn carries no function call. -/
def visualDoneOutput (text : String) (history : List String) : String :=
  "Visual Agent Completed.\nFinal Message: " ++
    (if text = "" then "Done" else text) ++
    "\nActions Taken:\n" ++ String.intercalate "\n" history

/-- `const VISUAL_MAX_STEPS = 5`. -/
def VISUAL_MAX_STEPS : Nat := 5

/-- The `for (let i = 0; i < VISUAL_MAX_STEPS; i++)` loop: abort check at the
top of each iteration; a turn without response content breaks to the
max-steps return; a turn with no function calls returns the completion
output; otherwise all calls execute and the loop continues. -/
def runVisualDelegate (env : VisualEnv) :
    Nat → Nat → Nat → List String → VLoopResult
  | 0, _, _, history => ⟨maxStepsOutput history, 0, history⟩
  | fuel + 1, k, i, history =>
    if env.sig.aborted k then
      ⟨"Visual agent cancelled by user.", 0, history⟩
    else
      match env.turns i with
      | VisualTurn.noResponse => ⟨maxStepsOutput history, 1, history⟩
      | VisualTurn.ok text calls =>
        if calls.length = 0 then
          ⟨visualDoneOutput text history, 1, history⟩
        else
          let R := execVisualRound calls
          let L := runVisualDelegate env fuel (k + 1) (i + 1)
            (history ++ R.history)
          ⟨L.output, 1 + L.modelCalls, L.history⟩

/-! ## The connection manager (`BrowserManager`)

State: the lazily assigned debugging port, the Playwright browser handle, the
page and the MCP client.  The oracles cover the free-port allocator, the
launch outcome, the MCP client registry and `connect()`. -/

/-- A browser process handle (`this.browser`), with its
`isConnected()` observation. -/
structure BrowserH where
  connected : Bool
deriving DecidableEq

/-- An MCP client handle, with its `getStatus()` observation. -/
structure ClientH where
  status : String
deriving DecidableEq

/-- The mutable fields of a `BrowserManager`. -/
structure BMState where
  remoteDebuggingPort : Option Nat
  browser : Option BrowserH
  page : Bool
  mcpClient : Option ClientH
deriving DecidableEq

/-- Oracles for the external collaborators of `BrowserManager`. -/
structure BMEnv where
  freePort : Nat
  launch : Except String BrowserH
  existingClient : Option ClientH
  registeredClient : Option ClientH
  connectOutcome : Except String ClientH

/-- Side-effect counters: browser processes launched and MCP server
registrations performed. -/
structure BMEffects where
  launches : Nat
  registrations : Nat
deriving DecidableEq

/-- `if (!this.browser || !this.browser.isConnected())`. -/
def browserNeedsLaunch (s : BMState) : Bool :=
  match s.browser with
  | Option.none => true
  | Option.some b => !b.connected

/-- `if (!this.mcpClient || this.mcpClient.getStatus() !== 'connected')`. -/
def clientNeedsConnect (s : BMState) : Bool :=
  match s.mcpClient with
  | Option.none => true
  | Option.some c => !(c.status == "connected")

/-- `BrowserManager.connectMcp`: look the client up in the registry; when
absent, register the server (one registration) and look it up again; fail when
still absent; connect it when its status is not "connected"; store it. -/
def connectMcp (env : BMEnv) (s : BMState) : Except String (BMState × Nat) :=
  let lookup : Option ClientH × Nat :=
    match env.existingClient with
    | Option.some c => (Option.some c, 0)
    | Option.none => (env.registeredClient, 1)
  match lookup.1 with
  | Option.none => Except.error "Failed to initialize chrome-devtools MCP client"
  | Option.some c =>
    if c.status == "connected" then
      Except.ok ({ s with mcpClient := Option.some c }, lookup.2)
    else
      match env.connectOutcome with
      | Except.error m => Except.error m
      | Except.ok c2 =>
        Except.ok ({ s with mcpClient := Option.some c2 }, lookup.2)

/-- `BrowserManager.ensureBrowserLaunched`: allocate the port once, launch the
browser when absent or disconnected, then connect the MCP client when absent
or not connected. -/
def ensureBrowserLaunched (env : BMEnv) (s : BMState) :
    Except String (BMState × BMEffects) :=
  let port := s.remoteDebuggingPort.getD env.freePort
  let s1 : BMState := { s with remoteDebuggingPort := Option.some port }
  let launchStep : Except String (BMState × Nat) :=
    if browserNeedsLaunch s1 then
      match env.launch with
      | Except.error m => Except.error m
      | Except.ok b =>
        Except.ok ({ s1 with browser := Option.some b, page := true }, 1)
    else Except.ok (s1, 0)
  match launchStep with
  | Except.error m => Except.error m
  | Except.ok (s2, nl) =>
    if clientNeedsConnect s2 then
      match connectMcp env s2 with
      | Except.error m => Except.error m
      | Except.ok (s3, nr) => Except.ok (s3, ⟨nl, nr⟩)
    else Except.ok (s2, ⟨nl, 0⟩)

/-- `BrowserManager.ensureConnection`: always delegates to
`ensureBrowserLaunched`. -/
def ensureConnection (env : BMEnv) (s : BMState) :
    Except String (BMState × BMEffects) :=
  ensureBrowserLaunched env s

/-- `BrowserManager.getMcpClient`: return the stored client when it reports
"connected"; otherwise run `ensureConnection` and fail when it still produced
no client. -/
def getMcpClient (env : BMEnv) (s : BMState) :
    Except String (ClientH × BMState × BMEffects) :=
  let connectedNow : Option ClientH :=
    match s.mcpClient with
    | Option.some c => if c.status == "connected" then Option.some c else Option.none
    | Option.none => Option.none
  match connectedNow with
  | Option.some c => Except.ok (c, s, ⟨0, 0⟩)
  | Option.none =>
    match ensureConnection env s with
    | Except.error m => Except.error m
    | Except.ok (s2, eff) =>
      match s2.mcpClient with
      | Option.none =>
        Except.error "Failed to initialize chrome-devtools MCP client"
      | Option.some c => Except.ok (c, s2, eff)

/-! ## Helper lemmas about the loop embedding -/

@[simp] theorem sigNever_aborted (k : Nat) : sigNever.aborted k = false := rfl

theorem aborted_mono (sig : AbortSig) (k k' : Nat) (hk : k ≤ k')
    (h : sig.aborted k = true) : sig.aborted k' = true := by
  cases sig with
  | mk o =>
    cases o with
    | none => simp [AbortSig.aborted] at h
    | some a =>
      simp only [AbortSig.aborted, decide_eq_true_eq] at h ⊢
      omega

/-- `taskCompleted` after a round, as a fold over the calls. -/
def roundCompleted (b : Bool) (calls : List FnCall) : Bool :=
  b || calls.any fun c => c.name == "complete_task"

/-- `taskSummary` after a round, as a fold over the calls. -/
def roundSummary (s : String) : List FnCall → String
  | [] => s
  | c :: rest =>
    roundSummary (if c.name = "complete_task" then completeSummary c else s) rest

theorem completeSummary_ne (c : FnCall) : completeSummary c ≠ "" := by
  unfold completeSummary
  by_cases h : c.summary = "" <;> simp [h]

theorem roundSummary_ne_of_ne (s : String) (calls : List FnCall)
    (h : s ≠ "") : roundSummary s calls ≠ "" := by
  induction calls generalizing s with
  | nil => exact h
  | cons c rest ih =>
    by_cases hc : c.name = "complete_task"
    · simpa [roundSummary, hc] using ih _ (completeSummary_ne c)
    · simpa [roundSummary, hc] using ih _ h

theorem roundSummary_ne_of_has (s : String) (calls : List FnCall)
    (h : ∃ c ∈ calls, c.name = "complete_task") : roundSummary s calls ≠ "" := by
  induction calls generalizing s with
  | nil => simp at h
  | cons c rest ih =>
    by_cases hc : c.name = "complete_task"
    · simpa [roundSummary, hc] using
        roundSummary_ne_of_ne _ rest (completeSummary_ne c)
    · rcases h with ⟨d, hd, hdc⟩
      rcases List.mem_cons.mp hd with rfl | hdrest
      · exact absurd hdc hc
      · simpa [roundSummary, hc] using ih _ ⟨d, hdrest, hdc⟩

theorem roundSummary_of_none (s : String) (calls : List FnCall)
    (h : ∀ c ∈ calls, c.name ≠ "complete_task") : roundSummary s calls = s := by
  induction calls generalizing s with
  | nil => rfl
  | cons c rest ih =>
    have hc : c.name ≠ "complete_task" := h c (List.mem_cons_self c rest)
    simpa [roundSummary, hc] using ih s fun d hd => h d (List.mem_cons_of_mem c hd)

theorem roundCompleted_of_none (b : Bool) (calls : List FnCall)
    (h : ∀ c ∈ calls, c.name ≠ "complete_task") : roundCompleted b calls = b := by
  have : calls.any (fun c => c.name == "complete_task") = false := by
    simp only [List.any_eq_false]
    intro c hc
    simpa using h c hc
  simp [roundCompleted, this]

theorem roundCompleted_of_has (b : Bool) (calls : List FnCall)
    (h : ∃ c ∈ calls, c.name = "complete_task") : roundCompleted b calls = true := by
  have : calls.any (fun c => c.name == "complete_task") = true := by
    simp only [List.any_eq_true]
    rcases h with ⟨c, hc, hn⟩
    exact ⟨c, hc, by simpa using hn⟩
  simp [roundCompleted, this]

theorem collectStream_never (k : Nat) (chunks : List (List FnCall)) :
    collectStream sigNever k chunks = ⟨joinAll chunks, k + chunks.length⟩ := by
  induction chunks generalizing k with
  | nil => simp [collectStream, joinAll]
  | cons ch rest ih =>
    simp only [collectStream, sigNever_aborted, Bool.false_eq_true, if_false,
      ih (k + 1), joinAll]
    simp only [StreamResult.mk.injEq, List.length_cons]
    exact ⟨by simp, by omega⟩

theorem execRound_cons (sig : AbortSig) (k : Nat) (b : Bool) (s : String)
    (c : FnCall) (rest : List FnCall) :
    execRound sig k b s (c :: rest) =
      if sig.aborted k then ⟨[], [], b, s, true, k + 1⟩
      else if c.name = "" then execRound sig (k + 1) b s rest
      else
        ⟨partOf c :: (execRound sig (k + 1) (b || (c.name == "complete_task"))
            (if c.name = "complete_task" then completeSummary c else s) rest).parts,
         c.name :: (execRound sig (k + 1) (b || (c.name == "complete_task"))
            (if c.name = "complete_task" then completeSummary c else s) rest).executed,
         (execRound sig (k + 1) (b || (c.name == "complete_task"))
            (if c.name = "complete_task" then completeSummary c else s) rest).completed,
         (execRound sig (k + 1) (b || (c.name == "complete_task"))
            (if c.name = "complete_task" then completeSummary c else s) rest).summary,
         (execRound sig (k + 1) (b || (c.name == "complete_task"))
            (if c.name = "complete_task" then completeSummary c else s) rest).cancelled,
         (execRound sig (k + 1) (b || (c.name == "complete_task"))
            (if c.name = "complete_task" then completeSummary c else s) rest).kNext⟩ := rfl

theorem execRound_never (k : Nat) (b : Bool) (s : String) (calls : List FnCall) :
    execRound sigNever k b s calls =
      ⟨(calls.filter fun c => c.name != "").map partOf,
       (calls.filter fun c => c.name != "").map FnCall.name,
       roundCompleted b calls, roundSummary s calls, false, k + calls.length⟩ := by
  induction calls generalizing k b s with
  | nil => simp [execRound, roundCompleted, roundSummary]
  | cons c rest ih =>
    rw [execRound_cons]
    simp only [sigNever_aborted, Bool.false_eq_true, if_false]
    by_cases h : c.name = ""
    · rw [if_pos h, ih]
      have hnc : c.name ≠ "complete_task" := by simp [h]
      have h1 : ((c :: rest).filter fun c => c.name != "")
          = rest.filter fun c => c.name != "" := by
        simp [List.filter_cons, h]
      have h2 : roundCompleted b (c :: rest) = roundCompleted b rest := by
        simp [roundCompleted, h]
      have h3 : roundSummary s (c :: rest) = roundSummary s rest := by
        simp [roundSummary, hnc]
      have h4 : k + (c :: rest).length = k + 1 + rest.length := by
        simp only [List.length_cons]; omega
      rw [h1, h2, h3, h4]
    · rw [if_neg h, ih]
      have h1 : ((c :: rest).filter fun c => c.name != "")
          = c :: (rest.filter fun c => c.name != "") := by
        simp [List.filter_cons, h]
      have h2 : roundCompleted b (c :: rest)
          = roundCompleted (b || (c.name == "complete_task")) rest := by
        simp [roundCompleted, Bool.or_assoc]
      have h3 : roundSummary s (c :: rest)
          = roundSummary
              (if c.name = "complete_task" then completeSummary c else s) rest := rfl
      have h4 : k + (c :: rest).length = k + 1 + rest.length := by
        simp only [List.length_cons]; omega
      rw [h1, h2, h3, h4, List.map_cons, List.map_cons]

theorem execRound_never_cancelled (k : Nat) (b : Bool) (s : String)
    (calls : List FnCall) : (execRound sigNever k b s calls).cancelled = false := by
  rw [execRound_never]

theorem execRound_cancelled_kNext (sig : AbortSig) (k : Nat) (b : Bool)
    (s : String) (calls : List FnCall)
    (h : (execRound sig k b s calls).cancelled = true) :
    sig.aborted (execRound sig k b s calls).kNext = true := by
  induction calls generalizing k b s with
  | nil => simp [execRound] at h
  | cons c rest ih =>
    rw [execRound_cons] at h ⊢
    by_cases ha : sig.aborted k = true
    · rw [if_pos ha] at h ⊢
      exact aborted_mono sig k (k + 1) (by omega) ha
    · rw [if_neg ha] at h ⊢
      by_cases hn : c.name = ""
      · rw [if_pos hn] at h ⊢
        exact ih _ _ _ h
      · rw [if_neg hn] at h ⊢
        exact ih _ _ _ h

theorem execRound_abort_stops (sig : AbortSig) (calls : List FnCall)
    (i k : Nat) (b : Bool) (s : String) (hi : i < calls.length)
    (ha : sig.aborted (k + i) = true)
    (hb : ∀ j, j < i → sig.aborted (k + j) = false) :
    execRound sig k b s calls =
      ⟨((calls.take i).filter fun c => c.name != "").map partOf,
       ((calls.take i).filter fun c => c.name != "").map FnCall.name,
       roundCompleted b (calls.take i), roundSummary s (calls.take i), true,
       k + i + 1⟩ := by
  induction calls generalizing i k b s with
  | nil => simp at hi
  | cons c rest ih =>
    cases i with
    | zero =>
      have ha0 : sig.aborted k = true := by simpa using ha
      rw [execRound_cons, if_pos ha0]
      simp [roundCompleted, roundSummary]
    | succ i' =>
      have ha0 : sig.aborted k = false := by simpa using hb 0 (by omega)
      rw [execRound_cons, if_neg (by simp [ha0])]
      have hi' : i' < rest.length := by simpa using hi
      have ha' : sig.aborted (k + 1 + i') = true := by
        rw [show k + 1 + i' = k + (i' + 1) from by omega]
        exact ha
      have hb' : ∀ j, j < i' → sig.aborted (k + 1 + j) = false := by
        intro j hj
        rw [show k + 1 + j = k + (j + 1) from by omega]
        exact hb (j + 1) (by omega)
      have htake : (c :: rest).take (i' + 1) = c :: rest.take i' := rfl
      by_cases hn : c.name = ""
      · rw [if_pos hn, ih i' (k + 1) b s hi' ha' hb', htake]
        have hnc : c.name ≠ "complete_task" := by simp [hn]
        have h1 : ((c :: rest.take i').filter fun c => c.name != "")
            = (rest.take i').filter fun c => c.name != "" := by
          simp [List.filter_cons, hn]
        have h2 : roundCompleted b (c :: rest.take i')
            = roundCompleted b (rest.take i') := by
          simp [roundCompleted, hn]
        have h3 : roundSummary s (c :: rest.take i')
            = roundSummary s (rest.take i') := by
          simp [roundSummary, hnc]
        have h4 : k + (i' + 1) + 1 = k + 1 + i' + 1 := by omega
        rw [h1, h2, h3, h4]
      · rw [if_neg hn,
          ih i' (k + 1) (b || (c.name == "complete_task"))
            (if c.name = "complete_task" then completeSummary c else s) hi' ha' hb',
          htake]
        have h1 : ((c :: rest.take i').filter fun c => c.name != "")
            = c :: ((rest.take i').filter fun c => c.name != "") := by
          simp [List.filter_cons, hn]
        have h2 : roundCompleted b (c :: rest.take i')
            = roundCompleted (b || (c.name == "complete_task")) (rest.take i') := by
          simp [roundCompleted, Bool.or_assoc]
        have h3 : roundSummary s (c :: rest.take i')
            = roundSummary
                (if c.name = "complete_task" then completeSummary c else s)
                (rest.take i') := rfl
        have h4 : k + (i' + 1) + 1 = k + 1 + i' + 1 := by omega
        rw [h1, h2, h3, h4, List.map_cons, List.map_cons]

theorem runLoop_aborted (env : AgentEnv) (fuel k t : Nat) (b : Bool)
    (s : String) (h : env.sig.aborted k = true) :
    runLoop env fuel k t b s = ⟨finalResult s, 0, []⟩ := by
  cases fuel with
  | zero => rfl
  | succ fuel =>
    unfold runLoop
    rw [if_pos h]

theorem runLoop_succ_thrown (env : AgentEnv) (fuel k t : Nat) (b : Bool)
    (s msg : String) (h0 : env.sig.aborted k = false)
    (ht : env.turns t = ModelTurn.thrown msg) :
    runLoop env (fuel + 1) k t b s = ⟨"Error calling model: " ++ msg, 1, []⟩ := by
  unfold runLoop
  rw [if_neg (by simp [h0]), ht]

theorem runLoop_succ_ok (env : AgentEnv) (fuel k t : Nat) (b : Bool)
    (s : String) (chunks : List (List FnCall))
    (h0 : env.sig.aborted k = false)
    (ht : env.turns t = ModelTurn.ok chunks) :
    runLoop env (fuel + 1) k t b s =
      (if env.sig.aborted (collectStream env.sig (k + 1) chunks).kNext then
        (⟨finalResult s, 1, []⟩ : LoopResult)
      else if 0 < (collectStream env.sig (k + 1) chunks).calls.length then
        if (execRound env.sig ((collectStream env.sig (k + 1) chunks).kNext + 1)
             b s (collectStream env.sig (k + 1) chunks).calls).completed then
          ⟨finalResult
              (execRound env.sig
                ((collectStream env.sig (k + 1) chunks).kNext + 1) b s
                (collectStream env.sig (k + 1) chunks).calls).summary, 1,
            (execRound env.sig
              ((collectStream env.sig (k + 1) chunks).kNext + 1) b s
              (collectStream env.sig (k + 1) chunks).calls).executed⟩
        else
          ⟨(runLoop env fuel
              (execRound env.sig
                ((collectStream env.sig (k + 1) chunks).kNext + 1) b s
                (collectStream env.sig (k + 1) chunks).calls).kNext (t + 1)
              (execRound env.sig
                ((collectStream env.sig (k + 1) chunks).kNext + 1) b s
                (collectStream env.sig (k + 1) chunks).calls).completed
              (execRound env.sig
                ((collectStream env.sig (k + 1) chunks).kNext + 1) b s
                (collectStream env.sig (k + 1) chunks).calls).summary).result,
           1 + (runLoop env fuel
              (execRound env.sig
                ((collectStream env.sig (k + 1) chunks).kNext + 1) b s
                (collectStream env.sig (k + 1) chunks).calls).kNext (t + 1)
              (execRound env.sig
                ((collectStream env.sig (k + 1) chunks).kNext + 1) b s
                (collectStream env.sig (k + 1) chunks).calls).completed
              (execRound env.sig
                ((collectStream env.sig (k + 1) chunks).kNext + 1) b s
                (collectStream env.sig (k + 1) chunks).calls).summary).modelCalls,
           (execRound env.sig
              ((collectStream env.sig (k + 1) chunks).kNext + 1) b s
              (collectStream env.sig (k + 1) chunks).calls).executed ++
             (runLoop env fuel
              (execRound env.sig
                ((collectStream env.sig (k + 1) chunks).kNext + 1) b s
                (collectStream env.sig (k + 1) chunks).calls).kNext (t + 1)
              (execRound env.sig
                ((collectStream env.sig (k + 1) chunks).kNext + 1) b s
                (collectStream env.sig (k + 1) chunks).calls).completed
              (execRound env.sig
                ((collectStream env.sig (k + 1) chunks).kNext + 1) b s
                (collectStream env.sig (k + 1) chunks).calls).summary).actions⟩
      else
        ⟨(runLoop env fuel ((collectStream env.sig (k + 1) chunks).kNext + 1)
            (t + 1) b s).result,
         1 + (runLoop env fuel
            ((collectStream env.sig (k + 1) chunks).kNext + 1)
            (t + 1) b s).modelCalls,
         (runLoop env fuel ((collectStream env.sig (k + 1) chunks).kNext + 1)
            (t + 1) b s).actions⟩) := by
  conv_lhs => rw [runLoop]
  rw [if_neg (by simp [h0]), ht]

theorem runLoop_cancelled_round (env : AgentEnv) (fuel k t : Nat) (b : Bool)
    (s : String) (chunks : List (List FnCall))
    (ht : env.turns t = ModelTurn.ok chunks)
    (h0 : env.sig.aborted k = false)
    (h1 : env.sig.aborted (collectStream env.sig (k + 1) chunks).kNext = false)
    (h2 : 0 < (collectStream env.sig (k + 1) chunks).calls.length)
    (hcan : (execRound env.sig ((collectStream env.sig (k + 1) chunks).kNext + 1)
        b s (collectStream env.sig (k + 1) chunks).calls).cancelled = true)
    (hcomp : (execRound env.sig ((collectStream env.sig (k + 1) chunks).kNext + 1)
        b s (collectStream env.sig (k + 1) chunks).calls).completed = false) :
    runLoop env (fuel + 1) k t b s =
      ⟨finalResult
          (execRound env.sig ((collectStream env.sig (k + 1) chunks).kNext + 1)
            b s (collectStream env.sig (k + 1) chunks).calls).summary, 1,
        (execRound env.sig ((collectStream env.sig (k + 1) chunks).kNext + 1)
          b s (collectStream env.sig (k + 1) chunks).calls).executed⟩ := by
  rw [runLoop_succ_ok env fuel k t b s chunks h0 ht]
  rw [if_neg (by simp [h1]), if_pos h2, if_neg (by simp [hcomp])]
  have hk : env.sig.aborted
      (execRound env.sig ((collectStream env.sig (k + 1) chunks).kNext + 1)
        b s (collectStream env.sig (k + 1) chunks).calls).kNext = true :=
    execRound_cancelled_kNext env.sig _ b s _ hcan
  rw [runLoop_aborted env fuel _ (t + 1) _ _ hk]
  simp

/-- A model turn that streams successfully and contains no `complete_task`
call. -/
def okNoComplete (mt : ModelTurn) : Prop :=
  ∃ chunks, mt = ModelTurn.ok chunks ∧
    ∀ c ∈ joinAll chunks, c.name ≠ "complete_task"

theorem runLoop_never_noComplete (turns : Nat → ModelTurn) (fuel : Nat) :
    ∀ (k t : Nat) (s : String),
    (∀ j, j < fuel → okNoComplete (turns (t + j))) →
    (runLoop ⟨turns, sigNever⟩ fuel k t false s).result = finalResult s ∧
    (runLoop ⟨turns, sigNever⟩ fuel k t false s).modelCalls = fuel := by
  induction fuel with
  | zero => intro k t s _; exact ⟨rfl, rfl⟩
  | succ fuel ih =>
    intro k t s h
    obtain ⟨chunks, ht, hnc⟩ := h 0 (by omega)
    have henv : (⟨turns, sigNever⟩ : AgentEnv).turns t = ModelTurn.ok chunks := by
      simpa using ht
    rw [runLoop_succ_ok ⟨turns, sigNever⟩ fuel k t false s chunks rfl henv]
    have hS : collectStream (⟨turns, sigNever⟩ : AgentEnv).sig (k + 1) chunks =
        ⟨joinAll chunks, k + 1 + chunks.length⟩ := collectStream_never _ chunks
    rw [hS]
    dsimp only
    rw [execRound_never]
    dsimp only
    rw [roundCompleted_of_none false _ hnc, roundSummary_of_none s _ hnc]
    have hsh : ∀ j, j < fuel → okNoComplete (turns (t + 1 + j)) := by
      intro j hj
      have := h (j + 1) (by omega)
      rwa [show t + (j + 1) = t + 1 + j from by omega] at this
    by_cases hlen : 0 < (joinAll chunks).length
    · rw [if_neg (by simp), if_pos hlen]
      rw [if_neg (by simp)]
      obtain ⟨hr, hm⟩ := ih _ (t + 1) s hsh
      refine ⟨hr, ?_⟩
      dsimp only
      rw [hm]
      omega
    · rw [if_neg (by simp), if_neg hlen]
      obtain ⟨hr, hm⟩ := ih _ (t + 1) s hsh
      refine ⟨hr, ?_⟩
      dsimp only
      rw [hm]
      omega

theorem runLoop_complete_round (turns : Nat → ModelTurn) (r : Nat) :
    ∀ (fuel k t : Nat), r < fuel →
    (∀ j, j < r → okNoComplete (turns (t + j))) →
    ∀ chunks, turns (t + r) = ModelTurn.ok chunks →
    (∃ c ∈ joinAll chunks, c.name = "complete_task") →
    (runLoop ⟨turns, sigNever⟩ fuel k t false "").modelCalls = r + 1 ∧
    (runLoop ⟨turns, sigNever⟩ fuel k t false "").result
      = roundSummary "" (joinAll chunks) := by
  induction r with
  | zero =>
    intro fuel k t hr _ chunks ht hcomp
    cases fuel with
    | zero => omega
    | succ fuel =>
      have henv : (⟨turns, sigNever⟩ : AgentEnv).turns t = ModelTurn.ok chunks := by
        simpa using ht
      rw [runLoop_succ_ok ⟨turns, sigNever⟩ fuel k t false "" chunks rfl henv]
      have hS : collectStream (⟨turns, sigNever⟩ : AgentEnv).sig (k + 1) chunks =
          ⟨joinAll chunks, k + 1 + chunks.length⟩ := collectStream_never _ chunks
      rw [hS]
      dsimp only
      rw [execRound_never]
      dsimp only
      have hlen : 0 < (joinAll chunks).length := by
        rcases hcomp with ⟨c, hc, _⟩
        exact List.length_pos.mpr (fun hnil => by simp [hnil] at hc)
      rw [if_neg (by simp), if_pos hlen,
        if_pos (roundCompleted_of_has false _ hcomp)]
      refine ⟨rfl, ?_⟩
      have hne := roundSummary_ne_of_has "" (joinAll chunks) hcomp
      simp [finalResult, hne]
  | succ r ih =>
    intro fuel k t hr hprev chunks ht hcomp
    cases fuel with
    | zero => omega
    | succ fuel =>
      obtain ⟨chunks0, ht0, hnc0⟩ := hprev 0 (by omega)
      have henv : (⟨turns, sigNever⟩ : AgentEnv).turns t = ModelTurn.ok chunks0 := by
        simpa using ht0
      rw [runLoop_succ_ok ⟨turns, sigNever⟩ fuel k t false "" chunks0 rfl henv]
      have hS : collectStream (⟨turns, sigNever⟩ : AgentEnv).sig (k + 1) chunks0 =
          ⟨joinAll chunks0, k + 1 + chunks0.length⟩ := collectStream_never _ chunks0
      rw [hS]
      dsimp only
      rw [execRound_never]
      dsimp only
      rw [roundCompleted_of_none false _ hnc0, roundSummary_of_none "" _ hnc0]
      have hprev' : ∀ j, j < r → okNoComplete (turns (t + 1 + j)) := by
        intro j hj
        have := hprev (j + 1) (by omega)
        rwa [show t + (j + 1) = t + 1 + j from by omega] at this
      have ht' : turns (t + 1 + r) = ModelTurn.ok chunks := by
        rwa [show t + 1 + r = t + (r + 1) from by omega]
      by_cases hlen : 0 < (joinAll chunks0).length
      · rw [if_neg (by simp), if_pos hlen, if_neg (by simp)]
        obtain ⟨hm, hres⟩ := ih fuel _ (t + 1) (by omega) hprev' chunks ht' hcomp
        refine ⟨?_, hres⟩
        dsimp only
        rw [hm]
        omega
      · rw [if_neg (by simp), if_neg hlen]
        obtain ⟨hm, hres⟩ := ih fuel _ (t + 1) (by omega) hprev' chunks ht' hcomp
        refine ⟨?_, hres⟩
        dsimp only
        rw [hm]
        omega

theorem execVisualRound_eq (calls : List VisCall) :
    execVisualRound calls =
      ⟨calls.map (fun c => (c.name, execVisualCall c)),
       calls.map (fun c => historyEntry c (execVisualCall c))⟩ := by
  induction calls with
  | nil => rfl
  | cons c rest ih => simp [execVisualRound, ih]

theorem runVisualDelegate_succ_ok (env : VisualEnv) (fuel k i : Nat)
    (history : List String) (text : String) (calls : List VisCall)
    (h0 : env.sig.aborted k = false)
    (ht : env.turns i = VisualTurn.ok text calls) :
    runVisualDelegate env (fuel + 1) k i history =
      (if calls.length = 0 then
        (⟨visualDoneOutput text history, 1, history⟩ : VLoopResult)
      else
        ⟨(runVisualDelegate env fuel (k + 1) (i + 1)
            (history ++ (execVisualRound calls).history)).output,
         1 + (runVisualDelegate env fuel (k + 1) (i + 1)
            (history ++ (execVisualRound calls).history)).modelCalls,
         (runVisualDelegate env fuel (k + 1) (i + 1)
            (history ++ (execVisualRound calls).history)).history⟩) := by
  conv_lhs => rw [runVisualDelegate]
  rw [if_neg (by simp [h0]), ht]

/-- A visual model turn with response content and at least one function
call. -/
def okCallsTurn (vt : VisualTurn) : Prop :=
  ∃ text calls, vt = VisualTurn.ok text calls ∧ calls ≠ []

theorem runVisualDelegate_never_busy (turns : Nat → VisualTurn) (fuel : Nat) :
    ∀ (k i : Nat) (history : List String),
    (∀ j, j < fuel → okCallsTurn (turns (i + j))) →
    (runVisualDelegate ⟨turns, sigNever⟩ fuel k i history).output
      = maxStepsOutput
          (runVisualDelegate ⟨turns, sigNever⟩ fuel k i history).history ∧
    (runVisualDelegate ⟨turns, sigNever⟩ fuel k i history).modelCalls = fuel := by
  induction fuel with
  | zero => intro k i history _; exact ⟨rfl, rfl⟩
  | succ fuel ih =>
    intro k i history h
    obtain ⟨text, calls, ht, hne⟩ := h 0 (by omega)
    have henv : (⟨turns, sigNever⟩ : VisualEnv).turns i
        = VisualTurn.ok text calls := by simpa using ht
    rw [runVisualDelegate_succ_ok ⟨turns, sigNever⟩ fuel k i history text calls
      rfl henv]
    rw [if_neg (by simpa using hne)]
    have hsh : ∀ j, j < fuel → okCallsTurn (turns (i + 1 + j)) := by
      intro j hj
      have := h (j + 1) (by omega)
      rwa [show i + (j + 1) = i + 1 + j from by omega] at this
    obtain ⟨ho, hm⟩ := ih (k + 1) (i + 1)
      (history ++ (execVisualRound calls).history) hsh
    refine ⟨ho, ?_⟩
    dsimp only
    rw [hm]
    omega

theorem strStartsWith_withBlockedHint (t : String) :
    strStartsWith (withBlockedHint t) t = true := by
  unfold withBlockedHint
  by_cases hb : blockedSignals.any (fun p => containsStr t p) = true
  · rw [if_pos hb]
    show isPrefixCl t.data (t ++ overlayHintSuffix).data = true
    rw [data_append]
    exact isPrefixCl_append _ _
  · rw [if_neg hb]
    exact isPrefixCl_refl t.data

theorem empty_append_str (s : String) : "" ++ s = s := by
  cases s with
  | mk l => rfl

/-- Unfolding of the per-line element collection. -/
theorem overlayElementsOf_cons (l : String) (rest : List String) :
    overlayElementsOf (l :: rest) =
      ((if lineOverlayHit l then [trimStr l] else []) ++
       (if lineAriaModal l then [trimStr l] else [])) ++
      overlayElementsOf rest := rfl

theorem overlayElementsOf_not_isEmpty (lines : List String) :
    (!(overlayElementsOf lines).isEmpty)
      = lines.any (fun l => lineOverlayHit l || lineAriaModal l) := by
  induction lines with
  | nil => rfl
  | cons l rest ih =>
    rw [overlayElementsOf_cons]
    by_cases h1 : lineOverlayHit l = true
    · simp [h1, List.any_cons]
    · by_cases h2 : lineAriaModal l = true
      · simp [h1, h2, List.any_cons]
      · simp only [h1, h2, Bool.false_eq_true, if_false, List.nil_append,
          List.any_cons, Bool.false_or]
        exact ih

/-- The per-line overlay marker predicate, written out from the amended
claim: the lowercased line contains one of the quoted role attributes, one of
the space-padded role words, or the aria-modal marker. -/
def lineHasOverlayMarkerSpec (l : String) : Bool :=
  containsStr (lowerStr l) "role=\"dialog\"" ||
  containsStr (lowerStr l) "role=\"alertdialog\"" ||
  containsStr (lowerStr l) "role=\"tooltip\"" ||
  containsStr (lowerStr l) " dialog " ||
  containsStr (lowerStr l) " alertdialog " ||
  containsStr (lowerStr l) " tooltip " ||
  containsStr (lowerStr l) "aria-modal=\"true\""

theorem boolOrPerm : ∀ a b c x y z g : Bool,
    (a || (x || (b || (y || (c || (z || g))))))
      = (a || (b || (c || (x || (y || (z || g)))))) := by
  decide

theorem lineHit_or_aria_eq_spec (l : String) :
    (lineOverlayHit l || lineAriaModal l) = lineHasOverlayMarkerSpec l := by
  simp only [lineOverlayHit, lineAriaModal, lineHasOverlayMarkerSpec,
    overlayRoles, List.any_cons, List.any_nil, Bool.or_false, Bool.or_assoc]
  rw [show ("role=\"" ++ "dialog" ++ "\"" : String) = "role=\"dialog\"" from rfl,
    show ("role=\"" ++ "alertdialog" ++ "\"" : String)
      = "role=\"alertdialog\"" from rfl,
    show ("role=\"" ++ "tooltip" ++ "\"" : String) = "role=\"tooltip\"" from rfl,
    show ((" " : String) ++ "dialog" ++ " ") = " dialog " from rfl,
    show ((" " : String) ++ "alertdialog" ++ " ") = " alertdialog " from rfl,
    show ((" " : String) ++ "tooltip" ++ " ") = " tooltip " from rfl]
  exact boolOrPerm _ _ _ _ _ _ _

/-! ## Concrete inputs used by the witnesses -/

/-- A plain semantic call that succeeds. -/
def navCall : FnCall := ⟨"navigate", "", ExecResult.ok "ok"⟩

/-- A semantic call whose execution throws. -/
def errCall : FnCall := ⟨"click", "", ExecResult.thrown "boom"⟩

/-- A `complete_task` call with a summary argument. -/
def compCall : FnCall := ⟨"complete_task", "All done", ExecResult.ok ""⟩

/-- A function call whose name is missing. -/
def unnamedCall : FnCall := ⟨"", "", ExecResult.ok "x"⟩

/-- A visual call that succeeds. -/
def vClickCall : VisCall := ⟨"click_at", "x=1, y=2", ExecResult.ok "\x7b\x7d"⟩

/-- A visual call whose execution throws. -/
def vErrCall : VisCall := ⟨"click_at", "x=3, y=4", ExecResult.thrown "kaput"⟩

/-! ## Claim theorems -/

/-- C1: the claim states that a model-call error whose text is the
empty-stream message is treated as a no-op turn and the loop continues, while
other errors terminate the task.  The code (its own log message
"Continuing..." notwithstanding) returns the error string unconditionally
from the catch block, so every model-call error — the empty-stream one
included — ends the task immediately after that single model call, with
no tool executed and the error message as the value `runTask` returns.
This theorem evaluates the embedded loop: the general conjunct covers any
thrown message, the concrete conjunct the empty-stream message that the
claim says should be recoverable. -/
theorem c1_model_error_terminates :
    (∀ msg : String,
      runTask ⟨fun _ => ModelTurn.thrown msg, sigNever⟩ =
        ⟨"Error calling model: " ++ msg, 1, []⟩) ∧
    runTask ⟨fun _ => ModelTurn.thrown emptyStreamMessage, sigNever⟩ =
      ⟨"Error calling model: " ++ emptyStreamMessage, 1, []⟩ := by
  constructor
  · intro msg
    exact runLoop_succ_thrown _ 19 0 0 false "" msg rfl rfl
  · exact runLoop_succ_thrown _ 19 0 0 false "" _ rfl rfl

/-- C2 counterexample: in a round whose calls are
`[complete_task "All done", navigate]`, `complete_task` executes (the round's
`completed` flag is set) and yet `navigate` still executes afterwards — the
`break` in the switch case leaves the `for` loop over the calls running, so
part (a) of the claim ("stops execution of any further function calls in that
round") is false. -/
theorem c2_counterexample :
    (execRound sigNever 0 false "" [compCall, navCall]).completed = true ∧
    (execRound sigNever 0 false "" [compCall, navCall]).executed
      = ["complete_task", "navigate"] := by
  exact ⟨by decide, by decide⟩

/-- C2 (amended): in a round whose function calls include `complete_task`,
every named call of the round still executes (including those after
`complete_task`); after the round the loop ends with the summary recorded by
`complete_task` as `runTask`'s result, and no further model call is made
(the run makes exactly `r + 1` model calls when the completing round is round
`r`). -/
theorem c2_complete_task_ends_loop (turns : Nat → ModelTurn)
    (r fuel k t : Nat) (chunks : List (List FnCall)) (hr : r < fuel)
    (hprev : ∀ j, j < r → okNoComplete (turns (t + j)))
    (ht : turns (t + r) = ModelTurn.ok chunks)
    (hcomp : ∃ c ∈ joinAll chunks, c.name = "complete_task") :
    (runLoop ⟨turns, sigNever⟩ fuel k t false "").modelCalls = r + 1 ∧
    (runLoop ⟨turns, sigNever⟩ fuel k t false "").result
      = roundSummary "" (joinAll chunks) ∧
    (execRound sigNever 0 false "" (joinAll chunks)).executed
      = ((joinAll chunks).filter fun c => c.name != "").map FnCall.name := by
  obtain ⟨hm, hres⟩ :=
    runLoop_complete_round turns r fuel k t hr hprev chunks ht hcomp
  exact ⟨hm, hres, by rw [execRound_never]⟩

/-- Model responses used by the C2 witness: round 0 returns one navigate
call, round 1 a batch containing complete_task. -/
def c2Turns : Nat → ModelTurn := fun j =>
  if j = 0 then ModelTurn.ok [[navCall]] else ModelTurn.ok [[compCall, navCall]]

/-- Witness for C2: with `c2Turns`, the run makes exactly 2 model calls and
returns the summary "All done". -/
theorem c2_complete_task_ends_loop_witness :
    (runLoop ⟨c2Turns, sigNever⟩ 20 0 0 false "").modelCalls = 2 ∧
    (runLoop ⟨c2Turns, sigNever⟩ 20 0 0 false "").result = "All done" := by
  have h := c2_complete_task_ends_loop c2Turns 1 20 0 0 [[compCall, navCall]]
    (by omega)
    (by
      intro j hj
      have hj0 : j = 0 := by omega
      subst hj0
      exact ⟨[[navCall]], rfl, by decide⟩)
    rfl
    (by decide)
  exact ⟨h.1, h.2.1.trans (by decide)⟩

/-- C3: for a round whose calls all carry a name and none of which is
`complete_task`, absent cancellation, the calls execute exactly in the order
the model returned them (the embedding is a sequential fold — there is no
concurrent execution), and each call produces exactly one function-response
part, in the same order, in the parts list that becomes the next model
turn's input (`currentInputParts`). -/
theorem c3_calls_execute_in_order (calls : List FnCall) (k : Nat) (b : Bool)
    (s : String) (hnamed : ∀ c ∈ calls, c.name ≠ "")
    (_hnocomp : ∀ c ∈ calls, c.name ≠ "complete_task") :
    (execRound sigNever k b s calls).executed = calls.map FnCall.name ∧
    (execRound sigNever k b s calls).parts.map RespPart.name
      = calls.map FnCall.name ∧
    (execRound sigNever k b s calls).parts.length = calls.length ∧
    (execRound sigNever k b s calls).cancelled = false := by
  have hfilter : (calls.filter fun c => c.name != "") = calls := by
    apply List.filter_eq_self.mpr
    intro c hc
    simpa using hnamed c hc
  rw [execRound_never]
  refine ⟨by rw [hfilter], ?_, ?_, rfl⟩
  · show ((calls.filter fun c => c.name != "").map partOf).map RespPart.name
        = calls.map FnCall.name
    rw [hfilter, List.map_map]
    rfl
  · show ((calls.filter fun c => c.name != "").map partOf).length = calls.length
    rw [hfilter, List.length_map]

/-- Witness for C3 at the concrete batch `[navigate, click]`. -/
theorem c3_calls_execute_in_order_witness :
    (execRound sigNever 0 false "" [navCall, errCall]).executed
      = ["navigate", "click"] ∧
    (execRound sigNever 0 false "" [navCall, errCall]).parts.map RespPart.name
      = ["navigate", "click"] := by
  have h := c3_calls_execute_in_order [navCall, errCall] 0 false ""
    (by decide) (by decide)
  exact ⟨h.1.trans (by decide), h.2.1.trans (by decide)⟩

/-- C4: cancellation stops the loop at each of the three check sites.
Conjunct 1: a signal set at the top-of-iteration check ends the run with no
model call, no executed tool, and the default result (so `complete_task` is
never invoked by the cancellation path).  Conjunct 2: a signal set during
response streaming (observed by the post-stream check) ends the run after
that single model call with no tool executed.  Conjunct 3: a signal set
before the check preceding queued call `i` executes exactly the named calls
before position `i` — already-started tools complete, later ones in the same
batch are skipped — and marks the round cancelled.  Conjunct 4: a round that
was cancelled without `complete_task` having executed ends the run right
after it: one model call total from that iteration, the round's executed
prefix, and the default result. -/
theorem c4_cancellation_stops_loop :
    (∀ (env : AgentEnv) (fuel k t : Nat) (b : Bool) (s : String),
      env.sig.aborted k = true →
      runLoop env fuel k t b s = ⟨finalResult s, 0, []⟩) ∧
    (∀ (env : AgentEnv) (fuel k t : Nat) (b : Bool) (s : String)
        (chunks : List (List FnCall)),
      env.turns t = ModelTurn.ok chunks →
      env.sig.aborted k = false →
      env.sig.aborted (collectStream env.sig (k + 1) chunks).kNext = true →
      runLoop env (fuel + 1) k t b s = ⟨finalResult s, 1, []⟩) ∧
    (∀ (sig : AbortSig) (calls : List FnCall) (i k : Nat) (b : Bool)
        (s : String),
      i < calls.length →
      sig.aborted (k + i) = true →
      (∀ j, j < i → sig.aborted (k + j) = false) →
      (execRound sig k b s calls).executed
          = ((calls.take i).filter fun c => c.name != "").map FnCall.name ∧
      (execRound sig k b s calls).parts
          = ((calls.take i).filter fun c => c.name != "").map partOf ∧
      (execRound sig k b s calls).cancelled = true) ∧
    (∀ (env : AgentEnv) (fuel k t : Nat) (b : Bool) (s : String)
        (chunks : List (List FnCall)),
      env.turns t = ModelTurn.ok chunks →
      env.sig.aborted k = false →
      env.sig.aborted (collectStream env.sig (k + 1) chunks).kNext = false →
      0 < (collectStream env.sig (k + 1) chunks).calls.length →
      (execRound env.sig ((collectStream env.sig (k + 1) chunks).kNext + 1) b s
        (collectStream env.sig (k + 1) chunks).calls).cancelled = true →
      (execRound env.sig ((collectStream env.sig (k + 1) chunks).kNext + 1) b s
        (collectStream env.sig (k + 1) chunks).calls).completed = false →
      runLoop env (fuel + 1) k t b s =
        ⟨finalResult
            (execRound env.sig ((collectStream env.sig (k + 1) chunks).kNext + 1)
              b s (collectStream env.sig (k + 1) chunks).calls).summary, 1,
          (execRound env.sig ((collectStream env.sig (k + 1) chunks).kNext + 1)
            b s (collectStream env.sig (k + 1) chunks).calls).executed⟩) := by
  refine ⟨?_, ?_, ?_, ?_⟩
  · intro env fuel k t b s h
    exact runLoop_aborted env fuel k t b s h
  · intro env fuel k t b s chunks ht h0 h1
    rw [runLoop_succ_ok env fuel k t b s chunks h0 ht, if_pos h1]
  · intro sig calls i k b s hi ha hb
    rw [execRound_abort_stops sig calls i k b s hi ha hb]
    exact ⟨rfl, rfl, rfl⟩
  · intro env fuel k t b s chunks ht h0 h1 h2 hcan hcomp
    exact runLoop_cancelled_round env fuel k t b s chunks ht h0 h1 h2 hcan hcomp

/-- Environment for the C4 witness, conjunct 1: aborted before the very
first check. -/
def c4EnvA : AgentEnv := ⟨fun _ => ModelTurn.ok [[navCall]], ⟨Option.some 0⟩⟩

/-- Environment for the C4 witness, conjunct 2: abort observed mid-stream. -/
def c4EnvB : AgentEnv := ⟨fun _ => ModelTurn.ok [[navCall]], ⟨Option.some 1⟩⟩

/-- Environment for the C4 witness, conjunct 4: abort observed before the
first queued tool of the round. -/
def c4EnvD : AgentEnv :=
  ⟨fun _ => ModelTurn.ok [[navCall, errCall, compCall]], ⟨Option.some 3⟩⟩

/-- Witness for C4: each conjunct applied at a concrete environment. -/
theorem c4_cancellation_stops_loop_witness :
    runLoop c4EnvA 20 0 0 false "" = ⟨"Task finished", 0, []⟩ ∧
    runLoop c4EnvB 20 0 0 false "" = ⟨"Task finished", 1, []⟩ ∧
    ((execRound (⟨Option.some 4⟩ : AbortSig) 3 false "" [navCall, errCall]).executed
        = ["navigate"] ∧
      (execRound (⟨Option.some 4⟩ : AbortSig) 3 false "" [navCall, errCall]).cancelled
        = true) ∧
    runLoop c4EnvD 20 0 0 false "" = ⟨"Task finished", 1, []⟩ := by
  refine ⟨?_, ?_, ?_, ?_⟩
  · exact c4_cancellation_stops_loop.1 c4EnvA 20 0 0 false "" (by decide)
  · exact (c4_cancellation_stops_loop.2.1 c4EnvB 19 0 0 false "" [[navCall]]
      rfl (by decide) (by decide)).trans (by decide)
  · have h := c4_cancellation_stops_loop.2.2.1 (⟨Option.some 4⟩ : AbortSig)
      [navCall, errCall] 1 3 false "" (by decide) (by decide)
      (by
        intro j hj
        have hj0 : j = 0 := by omega
        subst hj0
        decide)
    exact ⟨h.1.trans (by decide), h.2.2⟩
  · exact (c4_cancellation_stops_loop.2.2.2 c4EnvD 19 0 0 false ""
      [[navCall, errCall, compCall]] rfl (by decide) (by decide) (by decide)
      (by decide) (by decide)).trans (by decide)

/-- C5: a thrown exception during a single tool execution is isolated to that
call.  Orchestrator half: the failing call still produces its one
function-response part, whose text starts with
"Error executing NAME: MESSAGE" (the tool name prefixes the message), and
every named call of the batch still executes.  Visual half: the failing
call's result is the object carrying the thrown message in its error field,
and every call of the batch still produces its response. -/
theorem c5_tool_error_isolated :
    (∀ (k : Nat) (b : Bool) (s : String) (calls : List FnCall) (c : FnCall)
        (m : String),
      c ∈ calls → c.name ≠ "" → c.name ≠ "complete_task" →
      c.exec = ExecResult.thrown m →
      partOf c ∈ (execRound sigNever k b s calls).parts ∧
      strStartsWith (partOf c).text
        ("Error executing " ++ c.name ++ ": " ++ m) = true ∧
      (execRound sigNever k b s calls).executed
        = (calls.filter fun x => x.name != "").map FnCall.name) ∧
    (∀ (calls : List VisCall) (c : VisCall) (m : String),
      c ∈ calls → c.name ∈ knownVisualTools → c.exec = ExecResult.thrown m →
      (c.name, VRes.err m) ∈ (execVisualRound calls).responses ∧
      (execVisualRound calls).responses.map Prod.fst
        = calls.map VisCall.name) := by
  constructor
  · intro k b s calls c m hc hn hnc hm
    rw [execRound_never]
    refine ⟨?_, ?_, rfl⟩
    · apply List.mem_map_of_mem
      apply List.mem_filter.mpr
      exact ⟨hc, by simpa using hn⟩
    · have hrt : respTextOf c = "Error executing " ++ c.name ++ ": " ++ m := by
        simp [respTextOf, hnc, hm]
      show strStartsWith (withBlockedHint (respTextOf c)) _ = true
      rw [hrt]
      exact strStartsWith_withBlockedHint _
  · intro calls c m hc hk hm
    rw [execVisualRound_eq]
    constructor
    · have hv : execVisualCall c = VRes.err m := by
        have hk2 : knownVisualTools.contains c.name = true := by
          simpa using hk
        unfold execVisualCall
        rw [if_pos hk2, hm]
      exact hv ▸ List.mem_map_of_mem _ hc
    · rw [List.map_map]
      rfl

/-- Witness for C5 at a concrete failing call in each loop. -/
theorem c5_tool_error_isolated_witness :
    partOf errCall ∈ (execRound sigNever 0 false "" [errCall, navCall]).parts ∧
    strStartsWith (partOf errCall).text "Error executing click: boom" = true ∧
    (execRound sigNever 0 false "" [errCall, navCall]).executed
      = ["click", "navigate"] ∧
    ("click_at", VRes.err "kaput") ∈ (execVisualRound [vErrCall]).responses := by
  have h1 := c5_tool_error_isolated.1 0 false "" [errCall, navCall] errCall
    "boom" (by decide) (by decide) (by decide) rfl
  have h2 := c5_tool_error_isolated.2 [vErrCall] vErrCall "kaput"
    (by decide) (by decide) rfl
  exact ⟨h1.1, h1.2.1, h1.2.2.trans (by decide), h2.1⟩

/-- C6: establishing the browser session connection is idempotent.  In any
state whose browser handle reports connected and whose MCP client reports
status "connected", `ensureConnection` performs zero browser launches and
zero MCP server registrations, leaves the browser and client fields
untouched (the state can only change by recording the already-allocated
port), and `getMcpClient` returns the stored client with zero effects.  The
state holds at most one browser process and one client by construction
(each is a single optional field). -/
theorem c6_ensureConnection_idempotent (env : BMEnv) (s : BMState)
    (b : BrowserH) (c : ClientH) (hb : s.browser = Option.some b)
    (hbc : b.connected = true) (hc : s.mcpClient = Option.some c)
    (hcs : c.status = "connected") :
    ensureConnection env s =
      Except.ok
        ({ s with remoteDebuggingPort :=
            Option.some (s.remoteDebuggingPort.getD env.freePort) }, ⟨0, 0⟩) ∧
    getMcpClient env s = Except.ok (c, s, ⟨0, 0⟩) := by
  have hneed : browserNeedsLaunch
      { s with remoteDebuggingPort :=
          Option.some (s.remoteDebuggingPort.getD env.freePort) } = false := by
    simp [browserNeedsLaunch, hb, hbc]
  have hcneed : clientNeedsConnect
      { s with remoteDebuggingPort :=
          Option.some (s.remoteDebuggingPort.getD env.freePort) } = false := by
    simp [clientNeedsConnect, hc, hcs]
  constructor
  · simp [ensureConnection, ensureBrowserLaunched, hneed, hcneed]
  · simp [getMcpClient, hc, hcs]

/-- Environment for the C6 witness. -/
def c6Env : BMEnv :=
  ⟨7, Except.ok ⟨true⟩, Option.some ⟨"connected"⟩, Option.none,
    Except.ok ⟨"connected"⟩⟩

/-- An already fully connected `BrowserManager` state. -/
def c6State : BMState :=
  ⟨Option.some 7, Option.some ⟨true⟩, true, Option.some ⟨"connected"⟩⟩

/-- Witness for C6: on the connected state, `ensureConnection` is the
identity on the state and performs no launch and no registration. -/
theorem c6_ensureConnection_idempotent_witness :
    ensureConnection c6Env c6State = Except.ok (c6State, ⟨0, 0⟩) ∧
    getMcpClient c6Env c6State
      = Except.ok (⟨"connected"⟩, c6State, ⟨0, 0⟩) := by
  have h := c6_ensureConnection_idempotent c6Env c6State ⟨true⟩ ⟨"connected"⟩
    rfl rfl rfl rfl
  exact ⟨h.1.trans (by rfl), h.2⟩

/-- C7: both loops are bounded and exhaust gracefully.  With no cancellation,
no model error and no `complete_task` across `MAX_ITERATIONS = 20` rounds,
the orchestrator makes exactly 20 model calls and returns the default
"Task finished" (both loops are total Lean functions, so no exception can be
raised).  With every visual turn returning at least one call across
`VISUAL_MAX_STEPS = 5` rounds, the visual delegate makes exactly 5 model
calls and returns the max-steps output built from its accumulated action
history. -/
theorem c7_iteration_caps (turns : Nat → ModelTurn)
    (vturns : Nat → VisualTurn)
    (h : ∀ j, j < MAX_ITERATIONS → okNoComplete (turns j))
    (hv : ∀ j, j < VISUAL_MAX_STEPS → okCallsTurn (vturns j)) :
    (runTask ⟨turns, sigNever⟩).result = "Task finished" ∧
    (runTask ⟨turns, sigNever⟩).modelCalls = MAX_ITERATIONS ∧
    (runVisualDelegate ⟨vturns, sigNever⟩ VISUAL_MAX_STEPS 0 0 []).output
      = maxStepsOutput
          (runVisualDelegate ⟨vturns, sigNever⟩ VISUAL_MAX_STEPS 0 0 []).history ∧
    (runVisualDelegate ⟨vturns, sigNever⟩ VISUAL_MAX_STEPS 0 0 []).modelCalls
      = VISUAL_MAX_STEPS := by
  obtain ⟨h1, h2⟩ := runLoop_never_noComplete turns MAX_ITERATIONS 0 0 ""
    (by intro j hj; simpa using h j hj)
  obtain ⟨h3, h4⟩ := runVisualDelegate_never_busy vturns VISUAL_MAX_STEPS 0 0 []
    (by intro j hj; simpa using hv j hj)
  exact ⟨h1, h2, h3, h4⟩

/-- Constant model responses for the C7 witness: always one navigate call. -/
def c7Turns : Nat → ModelTurn := fun _ => ModelTurn.ok [[navCall]]

/-- Constant visual responses for the C7 witness: always one click call. -/
def c7VTurns : Nat → VisualTurn := fun _ => VisualTurn.ok "step" [vClickCall]

/-- Witness for C7 at the constant environments. -/
theorem c7_iteration_caps_witness :
    (runTask ⟨c7Turns, sigNever⟩).result = "Task finished" ∧
    (runTask ⟨c7Turns, sigNever⟩).modelCalls = 20 ∧
    (runVisualDelegate ⟨c7VTurns, sigNever⟩ 5 0 0 []).modelCalls = 5 := by
  have h := c7_iteration_caps c7Turns c7VTurns
    (fun j hj => ⟨[[navCall]], rfl, by decide⟩)
    (fun j hj => ⟨"step", [vClickCall], rfl, by decide⟩)
  exact ⟨h.1, h.2.1, h.2.2.2⟩

/-- A response text in which the snapshot marker occurs twice. -/
def c8DoubleMarker : String :=
  "a\n## Latest page snapshot\nb\n## Latest page snapshot\nc"

/-- C8 counterexample: when the marker occurs twice, `split` cuts at every
occurrence and only `parts[1]` reaches the snapshot channel, so the snapshot
is "b" and not the trimmed text after the (first) marker, which would be
"b\n## Latest page snapshot\nc".  The claim's universal statement — the
snapshot channel holds the text after the marker — therefore fails on this
input. -/
theorem c8_counterexample :
    (processToolResponse [RespItem.text c8DoubleMarker]).2 = "b" ∧
    trimStr "\nb\n## Latest page snapshot\nc" ≠ "b" := by
  exact ⟨by decide, by decide⟩

/-- C8 (amended): for a text part containing the marker, the narrative
channel holds exactly the trimmed text before the first occurrence and the
snapshot channel exactly the trimmed segment between the first occurrence and
the next occurrence (the whole trimmed remainder when the marker occurs
once); snapshot content is never duplicated into the narrative channel.  A
non-empty text part without the marker that contains "uid=" goes entirely to
the snapshot channel.  The spec's concrete example behaves exactly as
stated. -/
theorem c8_snapshot_split :
    (∀ (s p0 p1 : String) (rest : List String),
      splitOnStr s snapshotMarker = p0 :: p1 :: rest →
      processToolResponse [RespItem.text s] = (trimStr p0, trimStr p1)) ∧
    (∀ s : String, s ≠ "" → containsStr s snapshotMarker = false →
      containsStr s "uid=" = true →
      processToolResponse [RespItem.text s] = ("", trimStr s)) ∧
    processToolResponse
        [RespItem.text "foo\n## Latest page snapshot\nuid=1 button \"A\""]
      = ("foo", "uid=1 button \"A\"") := by
  refine ⟨?_, ?_, by decide⟩
  · intro s p0 p1 rest hsplit
    have hne : s ≠ "" := by
      intro h0
      subst h0
      have := congrArg List.length hsplit
      simp [splitOnStr, splitOnClF] at this
    have hcont : containsStr s snapshotMarker = true := by
      apply splitOnClF_two_le_containsCl snapshotMarker.data s.data.length
      have := congrArg List.length hsplit
      simp only [splitOnStr, List.length_map, List.length_cons] at this
      omega
    unfold processToolResponse
    simp only [List.foldl]
    unfold processItem
    dsimp only
    rw [if_neg hne, if_pos hcont, hsplit]
    dsimp only [List.headD]
    have htext :
        trimStr (if trimStr p0 = "" then "" else "" ++ trimStr p0 ++ "\n")
          = trimStr p0 := by
      by_cases h0 : trimStr p0 = ""
      · rw [if_pos h0, h0]
        rfl
      · rw [if_neg h0, empty_append_str, trimStr_append_newline, trimStr_idem]
    have hsnap : trimStr (if p1 = "" then "" else trimStr p1) = trimStr p1 := by
      by_cases h1 : p1 = ""
      · rw [if_pos h1, h1]
      · rw [if_neg h1, trimStr_idem]
    rw [Prod.mk.injEq]
    exact ⟨htext, hsnap⟩
  · intro s hne hnm huid
    unfold processToolResponse
    simp only [List.foldl]
    unfold processItem
    dsimp only
    rw [if_neg hne, if_neg (by simp [hnm]), if_pos huid]
    dsimp only
    rw [Prod.mk.injEq]
    exact ⟨rfl, by rw [empty_append_str]⟩

/-- Witness for C8: the marker-splitting conjunct at a one-marker input and
the uid conjunct at a marker-free input. -/
theorem c8_snapshot_split_witness :
    processToolResponse [RespItem.text "x\n## Latest page snapshot\nuid=2"]
      = ("x", "uid=2") ∧
    processToolResponse [RespItem.text "uid=9 link"] = ("", "uid=9 link") := by
  have h1 := c8_snapshot_split.1 "x\n## Latest page snapshot\nuid=2" "x\n"
    "\nuid=2" [] (by decide)
  have h2 := c8_snapshot_split.2.1 "uid=9 link" (by decide) (by decide)
    (by decide)
  exact ⟨h1.trans (by decide), h2.trans (by decide)⟩

/-- C9 counterexample: the snapshot "open dialog now" contains none of the
markers the claim lists (no quoted role attribute, no aria-modal), yet the
heuristic reports an overlay, because the source also matches the role word
padded with spaces.  The claim's "returns false for a snapshot with none of
those markers" is therefore false as stated. -/
theorem c9_counterexample :
    (detectBlockingOverlays "open dialog now").hasOverlay = true ∧
    containsStr "open dialog now" "role=\"dialog\"" = false ∧
    containsStr "open dialog now" "role=\"alertdialog\"" = false ∧
    containsStr "open dialog now" "role=\"tooltip\"" = false ∧
    containsStr "open dialog now" "aria-modal=\"true\"" = false := by
  decide

/-- C9 (amended): the heuristic reports an overlay exactly when some line of
the snapshot, lowercased, contains a quoted role attribute (role="dialog",
role="alertdialog", role="tooltip"), the role word padded with spaces, or
aria-modal="true" — in particular it is true whenever a line contains
role="dialog" and false when no line matches any of these; the human-readable
description lists at most the first 3 collected overlay lines. -/
theorem c9_overlay_detection :
    (∀ s : String, (detectBlockingOverlays s).hasOverlay
        = (splitOnStr s "\n").any lineHasOverlayMarkerSpec) ∧
    (∀ s : String, (detectBlockingOverlays s).overlayInfo = "" ∨
      (detectBlockingOverlays s).overlayInfo
        = "Detected overlay elements:\n" ++
          String.intercalate "\n"
            ((overlayElementsOf (splitOnStr s "\n")).take 3)) := by
  constructor
  · intro s
    show (!(overlayElementsOf (splitOnStr s "\n")).isEmpty) = _
    rw [overlayElementsOf_not_isEmpty]
    have hfun : (fun l => lineOverlayHit l || lineAriaModal l)
        = lineHasOverlayMarkerSpec := funext lineHit_or_aria_eq_spec
    rw [hfun]
  · intro s
    by_cases h : (overlayElementsOf (splitOnStr s "\n")).isEmpty = true
    · left
      show (if (overlayElementsOf (splitOnStr s "\n")).isEmpty then ""
        else "Detected overlay elements:\n" ++ String.intercalate "\n"
          ((overlayElementsOf (splitOnStr s "\n")).take 3)) = ""
      rw [if_pos h]
    · right
      show (if (overlayElementsOf (splitOnStr s "\n")).isEmpty then ""
        else "Detected overlay elements:\n" ++ String.intercalate "\n"
          ((overlayElementsOf (splitOnStr s "\n")).take 3)) = _
      rw [if_neg h]

/-- C10: a function call with a missing or empty name is skipped entirely:
no function-response part is appended for it (so the round's parts list is
strictly shorter than its call list), while every named call of the batch
still executes and produces its part. -/
theorem c10_unnamed_call_skipped (calls : List FnCall) (k : Nat) (b : Bool)
    (s : String) (h : ∃ c ∈ calls, c.name = "") :
    (execRound sigNever k b s calls).parts.length < calls.length ∧
    (execRound sigNever k b s calls).parts
      = ((calls.filter fun c => c.name != "").map partOf) ∧
    (execRound sigNever k b s calls).executed
      = (calls.filter fun c => c.name != "").map FnCall.name := by
  rw [execRound_never]
  refine ⟨?_, rfl, rfl⟩
  show ((calls.filter fun c => c.name != "").map partOf).length < calls.length
  rw [List.length_map]
  rcases h with ⟨c, hc, hn⟩
  apply List.length_filter_lt_length_iff_exists.mpr
  exact ⟨c, hc, by simp [hn]⟩

/-- Witness for C10 at the batch `[unnamed, navigate]`: one part fewer than
calls, and the named call still executed. -/
theorem c10_unnamed_call_skipped_witness :
    (execRound sigNever 0 false "" [unnamedCall, navCall]).parts.length = 1 ∧
    (execRound sigNever 0 false "" [unnamedCall, navCall]).executed
      = ["navigate"] := by
  have h := c10_unnamed_call_skipped [unnamedCall, navCall] 0 false ""
    ⟨unnamedCall, by decide, rfl⟩
  exact ⟨by decide, h.2.2.trans (by decide)⟩
